import Mathlib

/-!
Verification of the gorange range-query client library.

The development shallowly embeds the caching/refresh engine and the HTTP
transport client of the repository:

* `querier.go` (v3 transport client): `Client.Query`, `getFromRangeServers`,
  `getFromRangeServer`, the 4096-byte URI threshold and the GET/PUT
  method-fallback loop;
* `v3/cachingClient.go`: `newCachingClient` (duration wiring and the lookup
  callback), `CachingClient.Query`, `lastRequestTime`,
  `refreshBasedOnVersion`, `refreshBefore`;
* `v3/querier.go`: `NewQuerier` (validation and the plain-client shortcut);
* the legacy top-level `querier.go` / `cachingClient.go` construction path
  (fixed one-hour GC periodicity, no duration overrides) and the legacy
  body parser (which trims each line).

The Timed-Value Store (`goswarm.Simple`) is an external dependency whose code
is not part of this repository; it is modelled from the spec's store contract
(spec section 4.5): single-flight lookup, bare successful values stored with
the good durations, explicitly constructed TimedValues stored verbatim, bare
errors not cached, `Update` replacing an entry with the lookup outcome, and
`Range`/`Delete`/`Store`/`Load` as plain map operations.

Wall-clock instants and durations are modelled as integers counting
nanoseconds, exactly like Go's `time.Duration` and the monotonic reading of
`time.Time`; Go's `time` arithmetic overflow is out of scope.  Goroutine
interleavings are determinized: `refreshBefore` is modelled as its sequential
net effect (the `Range` pass with deletions, followed by draining the update
queue), which touches each distinct key exactly once.
-/

namespace Gorange

/-- Durations in nanoseconds, as Go's `time.Duration`. -/
abbrev GoDur : Type := Int

/-- Wall-clock instants in nanoseconds since the epoch (`time.Time`). -/
abbrev Instant : Type := Int

/-- Go's `time.Second` in nanoseconds. -/
def second : GoDur := 1000000000

/-- Go's `time.Minute`. -/
def minute : GoDur := 60 * second

/-- Go's `time.Hour`. -/
def hour : GoDur := 60 * minute

/-- The error taxonomy of the client (`querier.go`): the three classified
errors plus raw transport errors from the underlying HTTP client. -/
inductive GoError : Type
  | rangeException (message : String)
  | statusNotOK (status : String) (statusCode : Int)
  | parseException (message : String)
  | transport (message : String)
deriving DecidableEq, Repr

/-- The type-assertion test `_, ok := err.(ErrRangeException)` used by the
lookup callbacks in `v3/cachingClient.go` and `cachingClient.go`. -/
def GoError.isRangeException : GoError → Bool
  | .rangeException _ => true
  | _ => false

/-! ## Body parsing (`bufio.Scanner` with `ScanLines`, `strings.TrimSpace`) -/

/-- Split a character list at every newline; the piece after the last
newline is kept even when empty (it is dropped by `goScanLines`). -/
def splitOnNewline : List Char → List (List Char)
  | [] => [[]]
  | c :: rest =>
    if c = '\n' then [] :: splitOnNewline rest
    else
      match splitOnNewline rest with
      | [] => [[c]]
      | line :: more => (c :: line) :: more

/-- `dropCR` of Go's `bufio.ScanLines`: strip one trailing carriage return. -/
def dropCR (l : List Char) : List Char :=
  if l.getLast? = some '\r' then l.dropLast else l

/-- The token sequence produced by a `bufio.Scanner` with the default
`ScanLines` split function reading `body`: lines split at LF, the final
empty piece after a trailing LF omitted, and a trailing CR stripped from
each token.  (The scanner's 64 KiB token-size limit is not modelled.) -/
def goScanLines (body : String) : List String :=
  let pieces := splitOnNewline body.data
  let pieces :=
    match pieces.getLast? with
    | some [] => pieces.dropLast
    | _ => pieces
  pieces.map (fun l => String.mk (dropCR l))

/-- Go's `unicode.IsSpace` on the code points it recognizes. -/
def isGoSpace (c : Char) : Bool :=
  c = ' ' || c = '\t' || c = '\n' || c.val = 0x0B || c.val = 0x0C || c = '\r' ||
  c.val = 0x85 || c.val = 0xA0 ||
  c.val = 0x1680 || (0x2000 ≤ c.val && c.val ≤ 0x200A) ||
  c.val = 0x2028 || c.val = 0x2029 || c.val = 0x202F || c.val = 0x205F ||
  c.val = 0x3000

/-- Go's `strings.TrimSpace`: drop leading and trailing whitespace. -/
def trimSpace (s : String) : String :=
  String.mk (((s.data.dropWhile isGoSpace).reverse.dropWhile isGoSpace).reverse)

/-- The legacy clients' body parse (`cachingClient.go` List lookup,
legacy `Client.Query`): scanner lines with each line trimmed. -/
def legacyQueryParse (body : String) : List String :=
  (goScanLines body).map trimSpace

/-! ## `strconv.ParseInt(s, 10, 64)` -/

/-- Accumulate decimal digits; any non-digit character fails. -/
def parseDecDigits : List Char → Nat → Option Nat
  | [], acc => some acc
  | c :: rest, acc =>
    if c.isDigit then parseDecDigits rest (acc * 10 + (c.toNat - '0'.toNat))
    else none

/-- Go's `strconv.ParseInt(s, 10, 64)` as an `Option`: an optional sign
followed by at least one decimal digit, rejected when the value does not
fit a signed 64-bit integer.  (Underscore separators are rejected by Go
when an explicit base is given, as here.) -/
def goParseInt64 (s : String) : Option Int :=
  match s.data with
  | [] => none
  | c :: rest =>
    let signedDigits : Bool × List Char :=
      if c = '-' then (true, rest)
      else if c = '+' then (false, rest)
      else (false, c :: rest)
    match signedDigits.2 with
    | [] => none
    | _ =>
      match parseDecDigits signedDigits.2 0 with
      | none => none
      | some n =>
        if signedDigits.1 then
          if n ≤ 2 ^ 63 then some (-(n : Int)) else none
        else
          if n ≤ 2 ^ 63 - 1 then some (n : Int) else none

/-! ## Transport client (`querier.go`, v3: `Client`, `getFromRangeServer`) -/

/-- Go's `len` on a string: its UTF-8 byte count. -/
def charUtf8Size (c : Char) : Nat :=
  if c.val < 0x80 then 1
  else if c.val < 0x800 then 2
  else if c.val < 0x10000 then 3
  else 4

/-- `len(s)` for a Go string: UTF-8 bytes. -/
def goLen (s : String) : Nat :=
  s.data.foldl (fun n c => n + charUtf8Size c) 0

/-- `defaultQueryLengthThreshold` of `querier.go`: queries whose full URI is
longer than this are sent with PUT instead of GET. -/
def defaultQueryLengthThreshold : Nat := 4096

/-- The two HTTP methods `getFromRangeServer` alternates between. -/
inductive Method : Type
  | get
  | put
deriving DecidableEq, Repr

/-- An HTTP response as `getFromRangeServer` inspects it: status line, code,
the `RangeException` header ("" when absent), and the body. -/
structure HttpResponse : Type where
  status : String
  statusCode : Int
  rangeExceptionHeader : String
  body : String
deriving DecidableEq, Repr

/-- The environment of one `getFromRangeServer` call: the response (or
transport error) the network produces for the i-th request issued with the
given method. -/
abbrev Wire : Type := Nat → Method → Except GoError HttpResponse

/-- `endpoint := fmt.Sprintf("http://%s/range/list", rq.servers.Next())`. -/
def rangeEndpoint (server : String) : String :=
  "http://" ++ server ++ "/range/list"

/-- `uri := fmt.Sprintf("%s?%s", endpoint, url.QueryEscape(expression))`;
the expression is taken already URL-escaped. -/
def rangeURI (server escapedExpression : String) : String :=
  rangeEndpoint server ++ "?" ++ escapedExpression

/-- The initial method choice of `getFromRangeServer`: PUT when the full
URI is longer than `defaultQueryLengthThreshold` bytes, GET otherwise. -/
def initialMethod (server escapedExpression : String) : Method :=
  if defaultQueryLengthThreshold < goLen (rangeURI server escapedExpression) then .put
  else .get

/-- The `for triesRemaining := 2; ...` loop of `getFromRangeServer`
(`querier.go`): issue the request with the current method; surface transport
errors immediately; on 200 return the body unless the `RangeException`
header is set; on 414 switch to PUT, on 405 switch to GET, otherwise keep
the method, in each case recording an `ErrStatusNotOK` and retrying until
the tries are exhausted.  Besides the result it returns the list of methods
actually attempted, in order.  `herr` holds the last recorded status error;
it is `none` only before the first iteration, so the default in the
exhausted case is never served from the real entry point. -/
def getFromRangeServerLoop (wire : Wire) :
    Nat → Nat → Method → Option GoError → Except GoError String × List Method
  | 0, _, _, herr => (.error (herr.getD (.statusNotOK "" 0)), [])
  | triesRemaining + 1, idx, method, _ =>
    match wire idx method with
    | .error e => (.error e, [method])
    | .ok resp =>
      if resp.statusCode = 200 then
        if resp.rangeExceptionHeader ≠ "" then
          (.error (.rangeException resp.rangeExceptionHeader), [method])
        else (.ok resp.body, [method])
      else
        let next : Method :=
          if resp.statusCode = 414 then .put
          else if resp.statusCode = 405 then .get
          else method
        let res := getFromRangeServerLoop wire triesRemaining (idx + 1) next
          (some (.statusNotOK resp.status resp.statusCode))
        (res.1, method :: res.2)

/-- `getFromRangeServer` (`querier.go`): choose the initial method from the
URI length, then run the two-try method-fallback loop. -/
def getFromRangeServer (server escapedExpression : String) (wire : Wire) :
    Except GoError String × List Method :=
  getFromRangeServerLoop wire 2 0 (initialMethod server escapedExpression) none

/-- `getFromRangeServers` (`querier.go`): retry loop around
`getFromRangeServer`.  `remaining` counts the retries still allowed
(`rq.retryCount - attempts` in the source); a result is returned as soon as
it is non-error, the budget is exhausted, or the retry callback declines.
The pause between retries only consumes time and is not modelled. -/
def getFromRangeServersLoop (retryCallback : GoError → Bool)
    (fetch : Nat → Except GoError String) :
    Nat → Nat → Except GoError String
  | remaining, attempts =>
    match fetch attempts, remaining with
    | .ok body, _ => .ok body
    | .error e, 0 => .error e
    | .error e, r + 1 =>
      if retryCallback e then getFromRangeServersLoop retryCallback fetch r (attempts + 1)
      else .error e

/-- `getFromRangeServers` entry point with the configured retry count. -/
def getFromRangeServers (retryCount : Nat) (retryCallback : GoError → Bool)
    (fetch : Nat → Except GoError String) : Except GoError String :=
  getFromRangeServersLoop retryCallback fetch retryCount 0

/-- One `getFromRangeServer` call per outer retry attempt: the n-th attempt
talks to the network through `wireOf n`. -/
def fetchOf (server escapedExpression : String) (wireOf : Nat → Wire)
    (n : Nat) : Except GoError String :=
  (getFromRangeServer server escapedExpression (wireOf n)).1

/-- v3 `Client.Query` (`querier.go` lines 493-517): fetch the body through
the retry loop and split it into scanner lines.  Note the source appends
`scanner.Text()` verbatim, without `strings.TrimSpace`.  Read errors of the
in-memory body reader cannot occur in this model, so the
`ErrParseException` paths are never taken. -/
def clientQuery (retryCount : Nat) (retryCallback : GoError → Bool)
    (server escapedExpression : String) (wireOf : Nat → Wire) :
    Except GoError (List String) :=
  match getFromRangeServers retryCount retryCallback
      (fetchOf server escapedExpression wireOf) with
  | .error e => .error e
  | .ok body => .ok (goScanLines body)

/-! ## Timed-Value Store (goswarm.Simple, modelled from spec section 4.5) -/

/-- A cache entry: `goswarm.TimedValue` specialized to the result type the
caching client stores (`[]string`), with its classified error and the two
wall-clock deadlines. -/
structure TimedValue : Type where
  value : Option (List String)
  err : Option GoError
  stale : Instant
  expiry : Instant
deriving DecidableEq, Repr

/-- What the store hands back for an entry: its error when one is recorded,
otherwise its value. -/
def TimedValue.serve (tv : TimedValue) : Except GoError (List String) :=
  match tv.err with
  | some e => .error e
  | none => .ok (tv.value.getD [])

/-- What the lookup callback hands the store: either a bare successful value
(the store applies its good durations) or an explicitly constructed
`TimedValue` (stored verbatim). -/
inductive LookupOut : Type
  | bare (value : List String)
  | timed (tv : TimedValue)
deriving DecidableEq, Repr

/-- Modelled from the spec: the result cache of `goswarm.Simple` as a
key-ordered association list (Go map keys are unique; iteration order is
determinized to list order, which spec section 9 declares unobservable). -/
abbrev Store : Type := List (String × TimedValue)

/-- Modelled from the spec: the raw `Load` of the store. -/
def findEntry : Store → String → Option TimedValue
  | [], _ => none
  | kv :: rest, key => if kv.1 = key then some kv.2 else findEntry rest key

/-- Replace the entry for `key` in place, appending when absent. -/
def upsert : Store → String → TimedValue → Store
  | [], key, tv => [(key, tv)]
  | kv :: rest, key, tv =>
    if kv.1 = key then (key, tv) :: rest else kv :: upsert rest key tv

/-- Modelled from the spec: how the store incorporates one lookup outcome
for `key` (section 4.5): a bare value is stored with the good durations, an
explicit `TimedValue` verbatim, and a bare error is NOT cached — the store
is left unchanged and the error propagates (sections 3 and 4.5). -/
def applyLookup (goodStale goodExpiry : GoDur) (now : Instant) (s : Store)
    (key : String) (out : Except GoError LookupOut) :
    Store × Except GoError (List String) :=
  match out with
  | .error e => (s, .error e)
  | .ok (.bare value) =>
    (upsert s key ⟨some value, none, now + goodStale, now + goodExpiry⟩, .ok value)
  | .ok (.timed tv) => (upsert s key tv, tv.serve)

/-- Modelled from the spec: `goswarm.Simple.Query` (section 4.5).  A fresh
entry is served as is; a stale-but-unexpired entry is served while the
lookup outcome is stored (the asynchronous refresh, determinized to run
immediately); a missing or expired entry drives the lookup synchronously.
The third component records whether the lookup callback ran, i.e. whether
the upstream querier was invoked.  `out` is the outcome the lookup callback
would produce if invoked now. -/
def storeQuery (goodStale goodExpiry : GoDur) (now : Instant)
    (out : Except GoError LookupOut) (s : Store) (key : String) :
    Store × Except GoError (List String) × Bool :=
  match findEntry s key with
  | some tv =>
    if now < tv.stale then (s, tv.serve, false)
    else if now < tv.expiry then
      ((applyLookup goodStale goodExpiry now s key out).1, tv.serve, true)
    else
      ((applyLookup goodStale goodExpiry now s key out).1,
       (applyLookup goodStale goodExpiry now s key out).2, true)
  | none =>
    ((applyLookup goodStale goodExpiry now s key out).1,
     (applyLookup goodStale goodExpiry now s key out).2, true)

/-- Modelled from the spec: `goswarm.Simple.Update` (section 4.5) — force a
re-invocation of the lookup for `key` and store its outcome (a bare error
leaves the existing entry in place, since errors are not cached). -/
def storeUpdate (goodStale goodExpiry : GoDur) (now : Instant)
    (out : Except GoError LookupOut) (s : Store) (key : String) : Store :=
  (applyLookup goodStale goodExpiry now s key out).1

/-- Modelled from the spec: the last-access map — a goswarm store built with
a nil config, i.e. a plain concurrent map from expression to instant whose
entries never go stale and never expire. -/
abbrev TimesMap : Type := List (String × Instant)

/-- Raw `Load` on the last-access map. -/
def tmLoad : TimesMap → String → Option Instant
  | [], _ => none
  | kv :: rest, key => if kv.1 = key then some kv.2 else tmLoad rest key

/-- Raw `Store` on the last-access map. -/
def tmStore : TimesMap → String → Instant → TimesMap
  | [], key, t => [(key, t)]
  | kv :: rest, key, t =>
    if kv.1 = key then (key, t) :: rest else kv :: tmStore rest key t

/-! ## CachingClient (`v3/cachingClient.go`) -/

/-- `cachingClientConfig` of `v3/cachingClient.go` (the transport client
itself is passed separately as an oracle). -/
structure CachingClientConfig : Type where
  stale : GoDur
  expiry : GoDur
  checkVersionPeriodicity : GoDur
deriving DecidableEq, Repr

/-- `badStaleDuration := 1 * time.Minute` (`v3/cachingClient.go`). -/
def badStaleDuration : GoDur := 1 * minute

/-- `badExpiryDuration := 5 * time.Minute` (`v3/cachingClient.go`). -/
def badExpiryDuration : GoDur := 5 * minute

/-- The duration overrides of v3 `newCachingClient` (lines 43-54): when
`%version` polling is enabled, disable time-driven staleness and bound the
heap with a four-hour expiry when none is configured. -/
def v3AdjustConfig (ccc : CachingClientConfig) : CachingClientConfig :=
  if 0 < ccc.checkVersionPeriodicity then
    { ccc with
      stale := 0
      expiry := if ccc.expiry = 0 then 4 * hour else ccc.expiry }
  else ccc

/-- The durations v3 `newCachingClient` (lines 56-72) passes to the result
cache: the (adjusted) good durations, the fixed bad durations, and a GC
periodicity equal to the adjusted expiry when positive, else zero. -/
structure SwarmDurations : Type where
  goodStale : GoDur
  goodExpiry : GoDur
  badStale : GoDur
  badExpiry : GoDur
  gcPeriodicity : GoDur
deriving DecidableEq, Repr

/-- The goswarm configuration built by v3 `newCachingClient`. -/
def v3SwarmDurations (ccc : CachingClientConfig) : SwarmDurations :=
  let ccc := v3AdjustConfig ccc
  { goodStale := ccc.stale
    goodExpiry := ccc.expiry
    badStale := badStaleDuration
    badExpiry := badExpiryDuration
    gcPeriodicity := if 0 < ccc.expiry then ccc.expiry else 0 }

/-- The `Lookup` callback v3 `newCachingClient` installs on the result cache
(lines 73-94): query the transport client; cache a `RangeException` as an
explicit bad `TimedValue` so peers are not re-asked; return every other
error bare so it is not cached.  `upstream` is the transport client's
answer for this invocation. -/
def cacheLookup (upstream : Except GoError (List String)) (now : Instant) :
    Except GoError LookupOut :=
  match upstream with
  | .ok someStrings => .ok (.bare someStrings)
  | .error e =>
    if e.isRangeException then
      .ok (.timed
        { value := none
          err := some e
          stale := now + badStaleDuration
          expiry := now + badExpiryDuration })
    else .error e

/-- The mutable state of a v3 `CachingClient`: its (adjusted) config, the
result cache, the last-access map, and the last known `%version`. -/
structure CCState : Type where
  config : CachingClientConfig
  cache : Store
  lastRequestTimes : TimesMap
  version : Int
deriving DecidableEq, Repr

/-- The state of a freshly constructed v3 `CachingClient`: both stores
empty, version zero. -/
def initState (ccc : CachingClientConfig) : CCState :=
  { config := v3AdjustConfig ccc, cache := [], lastRequestTimes := [], version := 0 }

/-- The outcome of one public `Query` call. -/
structure QueryStep : Type where
  state : CCState
  result : Except GoError (List String)
  upstreamInvoked : Bool

/-- v3 `CachingClient.Query` (lines 145-156): stamp the last-access time for
the expression, then consult the result cache, whose miss path drives the
lookup callback.  The cast panic on a non-`[]string` cache value cannot
occur here because the model is typed. -/
def cachingClientQuery (now : Instant) (upstream : Except GoError (List String))
    (st : CCState) (expression : String) : QueryStep :=
  let lrt := tmStore st.lastRequestTimes expression now
  let res := storeQuery st.config.stale st.config.expiry now
    (cacheLookup upstream now) st.cache expression
  { state := { st with cache := res.1, lastRequestTimes := lrt }
    result := res.2.1
    upstreamInvoked := res.2.2 }

/-- v3 `CachingClient.lastRequestTime` (lines 158-164), with the panic on a
key that is missing from the last-access map surfaced as `none`. -/
def lastRequestTime (st : CCState) (key : String) : Option Instant :=
  tmLoad st.lastRequestTimes key

/-! ## Refresher (`v3/cachingClient.go`: `refreshBefore`,
`refreshBasedOnVersion`) -/

/-- The `Range` pass of `refreshBefore` (lines 203-214): visit every
(key, entry) pair; delete entries carrying an error; delete entries whose
last-access instant is before the cutoff; enqueue every other key on the
refresh channel.  Deleting while ranging removes exactly the visited key,
so the surviving store is the list of kept pairs.  `none` models the panic
inside `lastRequestTime` when a cache key is missing from the last-access
map. -/
def rangeDeleteAndCollect (lrt : TimesMap) (cutoff : Instant) :
    Store → Option (Store × List String)
  | [] => some ([], [])
  | kv :: rest =>
    if kv.2.err.isSome then rangeDeleteAndCollect lrt cutoff rest
    else
      match tmLoad lrt kv.1 with
      | none => none
      | some t =>
        if t < cutoff then rangeDeleteAndCollect lrt cutoff rest
        else
          match rangeDeleteAndCollect lrt cutoff rest with
          | none => none
          | some (kept, queue) => some (kv :: kept, kv.1 :: queue)

/-- v3 `refreshBefore` (lines 187-217): run the `Range` pass, then let the
refresher task drain the queue, calling `cache.Update` on every enqueued
key, before returning.  The refresher goroutine runs concurrently with
`Range` in the source, but each key is touched exactly once, so its net
effect equals this sequential two-phase form.  `upstreamOf key` is the
transport client's answer for the re-fetch of `key`. -/
def refreshBefore (upstreamOf : String → Except GoError (List String))
    (now cutoff : Instant) (st : CCState) : Option CCState :=
  match rangeDeleteAndCollect st.lastRequestTimes cutoff st.cache with
  | none => none
  | some (kept, queue) =>
    some { st with
      cache := queue.foldl
        (fun s key => storeUpdate st.config.stale st.config.expiry now
          (cacheLookup (upstreamOf key) now) s key)
        kept }

/-- Why `refreshBasedOnVersion` bailed out, when it did. -/
inductive VersionCheckError : Type
  | queryFailed (e : GoError)
  | wrongLineCount (n : Nat)
  | parseFailed
deriving DecidableEq, Repr

/-- v3 `refreshBasedOnVersion` (lines 166-185): query `%version` directly
against the transport client (`versionResult` is its answer), demand
exactly one output line, parse it as a signed 64-bit integer, and only when
it strictly exceeds the last known version run `refreshBefore` with cutoff
`time.Unix(version, 0).Add(-stale)` and then store the new version.  The
outer `none` propagates the panic possibility of `refreshBefore`. -/
def refreshBasedOnVersion (upstreamOf : String → Except GoError (List String))
    (now : Instant) (versionResult : Except GoError (List String))
    (st : CCState) : Option (CCState × Option VersionCheckError) :=
  match versionResult with
  | .error e => some (st, some (.queryFailed e))
  | .ok someStrings =>
    match someStrings with
    | [line] =>
      match goParseInt64 line with
      | none => some (st, some .parseFailed)
      | some version =>
        if st.version < version then
          match refreshBefore upstreamOf now (version * second - st.config.stale) st with
          | none => none
          | some st' => some ({ st' with version := version }, none)
        else some (st, none)
    | _ => some (st, some (.wrongLineCount someStrings.length))

/-! ## The client as a transition system (for the containment invariant) -/

/-- The events that mutate a v3 `CachingClient`'s state: a public `Query`,
a `%version` tick of the run loop, a stale-sweep tick, and a garbage
collection pass of the result cache (which drops expired entries). -/
inductive ClientOp : Type
  | query (expression : String) (now : Instant)
      (upstream : Except GoError (List String))
  | versionCheck (now : Instant) (versionResult : Except GoError (List String))
      (upstreamOf : String → Except GoError (List String))
  | staleSweep (now : Instant) (upstreamOf : String → Except GoError (List String))
  | cacheGC (now : Instant)

/-- One step of the client; `none` models the `lastRequestTime` panic.  The
run loop (lines 219-251) guards the version tick on
`checkVersionPeriodicity > 0` and the stale sweep on `stale > 0`, the
latter using cutoff `time.Now().Add(-expiry)`. -/
def applyOp (op : ClientOp) (st : CCState) : Option CCState :=
  match op with
  | .query expression now upstream =>
    some (cachingClientQuery now upstream st expression).state
  | .versionCheck now versionResult upstreamOf =>
    if 0 < st.config.checkVersionPeriodicity then
      (refreshBasedOnVersion upstreamOf now versionResult st).map Prod.fst
    else some st
  | .staleSweep now upstreamOf =>
    if 0 < st.config.stale then
      refreshBefore upstreamOf now (now - st.config.expiry) st
    else some st
  | .cacheGC now =>
    some { st with cache := st.cache.filter (fun kv => decide (now < kv.2.expiry)) }

/-- The states a v3 `CachingClient` constructed from `ccc` can reach. -/
inductive Reachable (ccc : CachingClientConfig) : CCState → Prop
  | init : Reachable ccc (initState ccc)
  | step {st st' : CCState} (op : ClientOp) :
      Reachable ccc st → applyOp op st = some st' → Reachable ccc st'

/-! ## Legacy construction path (top-level `querier.go` and
`cachingClient.go`) -/

/-- `cachingClientConfig` of the legacy top-level `cachingClient.go`, which
carries the GC periodicity explicitly. -/
structure LegacyCachingConfig : Type where
  stale : GoDur
  expiry : GoDur
  checkVersionPeriodicity : GoDur
  gcPeriodicity : GoDur
deriving DecidableEq, Repr

/-- The config the legacy `NewQuerier` (top-level `querier.go` lines
151-165) hands to `newCachingClient` when `TTL > 0 || TTE > 0 ||
CheckVersionPeriodicity > 0`: the durations pass through unchanged and the
GC periodicity is a fixed `time.Hour` whenever `TTE > 0`. -/
def legacyCachingConfigOf (ttl tte checkVersionPeriodicity : GoDur) :
    LegacyCachingConfig :=
  { stale := ttl
    expiry := tte
    checkVersionPeriodicity := checkVersionPeriodicity
    gcPeriodicity := if 0 < tte then hour else 0 }

/-- Whether the legacy `NewQuerier` wraps the transport client in a
`CachingClient` at all. -/
def legacyUsesCachingClient (ttl tte checkVersionPeriodicity : GoDur) : Bool :=
  decide (0 < ttl) || decide (0 < tte) || decide (0 < checkVersionPeriodicity)

/-- The legacy `newCachingClient` (top-level `cachingClient.go` lines
53-118): validate that no duration is negative and pass the durations to
the result cache unchanged — no `stale := 0` override, no four-hour expiry
default. -/
def legacyNewCachingClientDurations (config : LegacyCachingConfig) :
    Except String SwarmDurations :=
  if config.stale < 0 then
    .error "cannot create CachingClient with negative stale duration"
  else if config.expiry < 0 then
    .error "cannot create CachingClient with negative expiry duration"
  else if config.checkVersionPeriodicity < 0 then
    .error "cannot create CachingClient with negative checkVersionPeriodicity duration"
  else if config.gcPeriodicity < 0 then
    .error "cannot create CachingClient with negative gcPeriodicity duration"
  else
    .ok
      { goodStale := config.stale
        goodExpiry := config.expiry
        badStale := badStaleDuration
        badExpiry := badExpiryDuration
        gcPeriodicity := config.gcPeriodicity }

/-! ## v3 `NewQuerier` (`v3/querier.go` lines 120-187) -/

/-- The construction inputs of the v3 `Configurator` that decide which
querier is built (the HTTP client and retry callback are behavioral and
omitted). -/
structure Configurator : Type where
  servers : List String
  retryCount : Int
  retryPause : GoDur
  ttl : GoDur
  tte : GoDur
  checkVersionPeriodicity : GoDur
deriving DecidableEq, Repr

/-- What v3 `NewQuerier` returns: the bare transport client, or a
`CachingClient` wrapped around it with the given config. -/
inductive QuerierKind : Type
  | plainClient
  | cachingClient (ccc : CachingClientConfig)
deriving DecidableEq, Repr

/-- v3 `NewQuerier` (lines 120-187): validate the inputs in source order,
return the bare transport client when `CheckVersionPeriodicity`, `TTE` and
`TTL` are all zero, and otherwise wrap it in a `CachingClient`. -/
def newQuerier (config : Configurator) : Except String QuerierKind :=
  if config.servers.isEmpty then
    .error "cannot create Querier without at least one range server address"
  else if config.retryCount < 0 then
    .error "cannot create Querier with negative RetryCount"
  else if config.retryPause < 0 then
    .error "cannot create Querier with negative RetryPause"
  else if config.checkVersionPeriodicity < 0 then
    .error "cannot create Querier with negative CheckVersionPeriodicity duration"
  else if config.ttl < 0 then
    .error "cannot create Querier with negative TTL"
  else if config.tte < 0 then
    .error "cannot create Querier with negative TTE"
  else if config.checkVersionPeriodicity = 0 ∧ config.tte = 0 ∧ config.ttl = 0 then
    .ok .plainClient
  else
    .ok (.cachingClient
      { stale := config.ttl
        expiry := config.tte
        checkVersionPeriodicity := config.checkVersionPeriodicity })

/-! ## Spec-side definitions (refinement comparisons) -/

/-- Modelled from the spec: "Result: an ordered sequence of strings;
line-split from the response body with surrounding whitespace trimmed on
each line" — the claim-side description of a successful query result. -/
def specQueryLines (body : String) : List String :=
  (goScanLines body).map trimSpace

/-- Modelled from the spec: "`gcPeriodicity` defaults to `expiry` when
`expiry > 0`, else 0" — the claim-side description of the GC periodicity. -/
def specGcPeriodicity (expiry : GoDur) : GoDur :=
  if 0 < expiry then expiry else 0

/-- The `refreshBefore` visit policy, per entry: keep (and re-fetch) exactly
the entries that carry no error and whose last-access instant is not before
the cutoff. -/
def keepEntry (lrt : TimesMap) (cutoff : Instant) (kv : String × TimedValue) : Bool :=
  if kv.2.err.isSome then false
  else
    match tmLoad lrt kv.1 with
    | none => false
    | some t => if t < cutoff then false else true

/-- The entry an `Update` leaves behind, given the lookup outcome: a bare
error keeps the old entry, a bare value gets the good durations, an
explicit `TimedValue` is stored verbatim. -/
def updatedTV (goodStale goodExpiry : GoDur) (now : Instant)
    (out : Except GoError LookupOut) (old : TimedValue) : TimedValue :=
  match out with
  | .error _ => old
  | .ok (.bare value) => ⟨some value, none, now + goodStale, now + goodExpiry⟩
  | .ok (.timed tv) => tv

/-- The declarative net effect of `refreshBefore` on the result cache:
drop every entry the visit policy rejects and re-fetch every kept one. -/
def refreshedCache (upstreamOf : String → Except GoError (List String))
    (now cutoff : Instant) (st : CCState) : Store :=
  (st.cache.filter (keepEntry st.lastRequestTimes cutoff)).map
    (fun kv => (kv.1,
      updatedTV st.config.stale st.config.expiry now
        (cacheLookup (upstreamOf kv.1) now) kv.2))

/-- Keys of an association list. -/
def keysOf {α : Type} (s : List (String × α)) : List String :=
  s.map Prod.fst

/-- Every cache key has a last-access entry (the containment invariant the
source's panic message asserts). -/
def cacheKeysTracked (st : CCState) : Prop :=
  ∀ kv ∈ st.cache, (tmLoad st.lastRequestTimes kv.1).isSome

/-- The inductive invariant: cache keys are unique (Go map keys) and every
cache key has a last-access entry. -/
def goodState (st : CCState) : Prop :=
  (keysOf st.cache).Nodup ∧ cacheKeysTracked st

/-- Concrete state exercising all three `refreshBefore` branches: an
errored entry, a cold entry and a hot entry. -/
def c3State : CCState :=
  { config := ⟨0, 0, 0⟩
    cache := [("err", ⟨none, some (.rangeException "X"), 0, 0⟩),
      ("old", ⟨some ["a"], none, 0, 0⟩),
      ("hot", ⟨some ["b"], none, 0, 0⟩)]
    lastRequestTimes := [("err", 0), ("old", 5), ("hot", 50)]
    version := 0 }

/-- The wire used by the C5 witness: every request succeeds with the body
"a\r\nb". -/
def c5Wire : Nat → Wire :=
  fun _ => fun _ _ => .ok ⟨"200 OK", 200, "", "a\r\nb"⟩

/-- The wire used by the C6 witness: the first request is answered with
status 414, the second with 200. -/
def c6Wire : Wire :=
  fun idx _ =>
    if idx = 0 then .ok ⟨"414 Request-URI Too Long", 414, "", ""⟩
    else .ok ⟨"200 OK", 200, "", "ok\n"⟩

/-! ## Association-list lemmas -/

theorem findEntry_upsert_self (s : Store) (key : String) (tv : TimedValue) :
    findEntry (upsert s key tv) key = some tv := by
  induction s with
  | nil => simp [upsert, findEntry]
  | cons kv rest ih =>
    by_cases h : kv.1 = key
    · simp [upsert, h, findEntry]
    · simp [upsert, h, findEntry, ih]

theorem findEntry_eq_none_iff (s : Store) (key : String) :
    findEntry s key = none ↔ key ∉ keysOf s := by
  induction s with
  | nil => simp [findEntry, keysOf]
  | cons kv rest ih =>
    by_cases h : kv.1 = key
    · simp [findEntry, h, keysOf]
    · simp [findEntry, h, keysOf, ih]
      intro hk
      exact fun e => h e.symm

@[simp]
theorem keysOf_nil : keysOf ([] : Store) = [] := rfl

@[simp]
theorem keysOf_cons (kv : String × TimedValue) (rest : Store) :
    keysOf (kv :: rest) = kv.1 :: keysOf rest := rfl

theorem keysOf_upsert (s : Store) (key : String) (tv : TimedValue) :
    keysOf (upsert s key tv) =
      if key ∈ keysOf s then keysOf s else keysOf s ++ [key] := by
  induction s with
  | nil => simp [upsert, keysOf]
  | cons kv rest ih =>
    by_cases h : kv.1 = key
    · simp [upsert, h]
    · have h' : ¬ key = kv.1 := fun e => h e.symm
      by_cases hmem : key ∈ keysOf rest
      · simp [upsert, h, ih, List.mem_cons, hmem, h']
      · simp [upsert, h, ih, List.mem_cons, hmem, h']

theorem keysOf_upsert_subset (s : Store) (key k' : String) (tv : TimedValue)
    (h : k' ∈ keysOf (upsert s key tv)) : k' = key ∨ k' ∈ keysOf s := by
  rw [keysOf_upsert] at h
  by_cases hmem : key ∈ keysOf s
  · rw [if_pos hmem] at h
    exact Or.inr h
  · rw [if_neg hmem] at h
    rcases List.mem_append.mp h with h1 | h1
    · exact Or.inr h1
    · exact Or.inl (List.mem_singleton.mp h1)

theorem keysOf_upsert_nodup (s : Store) (key : String) (tv : TimedValue)
    (h : (keysOf s).Nodup) : (keysOf (upsert s key tv)).Nodup := by
  rw [keysOf_upsert]
  by_cases hmem : key ∈ keysOf s
  · rw [if_pos hmem]; exact h
  · rw [if_neg hmem]
    simp [List.nodup_append, h, hmem]

theorem tmLoad_tmStore (m : TimesMap) (key : String) (t : Instant) (k' : String) :
    tmLoad (tmStore m key t) k' = if k' = key then some t else tmLoad m k' := by
  induction m with
  | nil =>
    by_cases h : k' = key
    · simp [tmStore, tmLoad, h]
    · have h' : ¬ key = k' := fun e => h e.symm
      simp [tmStore, tmLoad, h, h']
  | cons kv rest ih =>
    by_cases h : kv.1 = key
    · by_cases h2 : k' = key
      · subst h2
        simp [tmStore, tmLoad, h]
      · have h2' : ¬ key = k' := fun e => h2 e.symm
        have hkv : ¬ kv.1 = k' := by rw [h]; exact h2'
        simp [tmStore, tmLoad, h, h2, h2', hkv]
    · by_cases h2 : kv.1 = k'
      · have h3 : ¬ k' = key := fun e => h (h2.trans e)
        simp [tmStore, tmLoad, h, h2, h3]
      · simp [tmStore, tmLoad, h, h2, ih]

theorem mem_keysOf {α : Type} (s : List (String × α)) (k : String) :
    k ∈ keysOf s ↔ ∃ kv ∈ s, kv.1 = k := by
  simp only [keysOf]
  exact List.mem_map

theorem keys_nodup_inj (l : Store) (hn : (keysOf l).Nodup)
    {kv kv' : String × TimedValue} (h1 : kv ∈ l) (h2 : kv' ∈ l)
    (he : kv.1 = kv'.1) : kv = kv' := by
  induction l with
  | nil => cases h1
  | cons x rest ih =>
    have hcons : (x.1 :: keysOf rest).Nodup := by simpa [keysOf] using hn
    have hx : x.1 ∉ keysOf rest := (List.nodup_cons.mp hcons).1
    have hrest : (keysOf rest).Nodup := (List.nodup_cons.mp hcons).2
    rcases List.mem_cons.mp h1 with e1 | m1
    · rcases List.mem_cons.mp h2 with e2 | m2
      · rw [e1, e2]
      · exact absurd ((mem_keysOf rest x.1).mpr ⟨kv', m2, by rw [← he, e1]⟩) hx
    · rcases List.mem_cons.mp h2 with e2 | m2
      · exact absurd ((mem_keysOf rest x.1).mpr ⟨kv, m1, by rw [he, e2]⟩) hx
      · exact ih hrest m1 m2

/-! ## Store-operation lemmas -/

theorem applyLookup_fst (goodStale goodExpiry : GoDur) (now : Instant)
    (s : Store) (key : String) (out : Except GoError LookupOut) :
    (applyLookup goodStale goodExpiry now s key out).1 = s ∨
      ∃ tv, (applyLookup goodStale goodExpiry now s key out).1 = upsert s key tv := by
  match out with
  | .error e => exact Or.inl rfl
  | .ok (.bare value) => exact Or.inr ⟨_, rfl⟩
  | .ok (.timed tv) => exact Or.inr ⟨tv, rfl⟩

theorem storeQuery_fst (goodStale goodExpiry : GoDur) (now : Instant)
    (out : Except GoError LookupOut) (s : Store) (key : String) :
    (storeQuery goodStale goodExpiry now out s key).1 = s ∨
      (storeQuery goodStale goodExpiry now out s key).1 =
        (applyLookup goodStale goodExpiry now s key out).1 := by
  unfold storeQuery
  cases findEntry s key with
  | none => exact Or.inr rfl
  | some tv =>
    dsimp only
    by_cases h1 : now < tv.stale
    · rw [if_pos h1]
      exact Or.inl rfl
    · by_cases h2 : now < tv.expiry
      · rw [if_neg h1, if_pos h2]
        exact Or.inr rfl
      · rw [if_neg h1, if_neg h2]
        exact Or.inr rfl

theorem keysOf_applyLookup_subset (goodStale goodExpiry : GoDur) (now : Instant)
    (s : Store) (key k' : String) (out : Except GoError LookupOut)
    (h : k' ∈ keysOf (applyLookup goodStale goodExpiry now s key out).1) :
    k' = key ∨ k' ∈ keysOf s := by
  rcases applyLookup_fst goodStale goodExpiry now s key out with he | ⟨tv, he⟩
  · rw [he] at h
    exact Or.inr h
  · rw [he] at h
    exact keysOf_upsert_subset s key k' tv h

theorem keysOf_applyLookup_nodup (goodStale goodExpiry : GoDur) (now : Instant)
    (s : Store) (key : String) (out : Except GoError LookupOut)
    (h : (keysOf s).Nodup) :
    (keysOf (applyLookup goodStale goodExpiry now s key out).1).Nodup := by
  rcases applyLookup_fst goodStale goodExpiry now s key out with he | ⟨tv, he⟩
  · rw [he]; exact h
  · rw [he]; exact keysOf_upsert_nodup s key tv h

/-! ## `refreshBefore` characterization -/

theorem rangeDeleteAndCollect_eq (lrt : TimesMap) (cutoff : Instant) :
    ∀ entries : Store, (∀ kv ∈ entries, (tmLoad lrt kv.1).isSome) →
      rangeDeleteAndCollect lrt cutoff entries =
        some (entries.filter (keepEntry lrt cutoff),
          keysOf (entries.filter (keepEntry lrt cutoff))) := by
  intro entries
  induction entries with
  | nil => intro _; simp [rangeDeleteAndCollect]
  | cons kv rest ih =>
    intro h
    have hrest := ih (fun x hx => h x (List.mem_cons_of_mem _ hx))
    have hkv : (tmLoad lrt kv.1).isSome := h kv (List.mem_cons_self _ _)
    by_cases herr : kv.2.err.isSome
    · have hkeep : keepEntry lrt cutoff kv = false := by simp [keepEntry, herr]
      simp [rangeDeleteAndCollect, herr, hrest, hkeep]
    · obtain ⟨t, ht⟩ := Option.isSome_iff_exists.mp hkv
      by_cases hlt : t < cutoff
      · have hkeep : keepEntry lrt cutoff kv = false := by
          simp [keepEntry, herr, ht, hlt]
        simp [rangeDeleteAndCollect, herr, ht, hlt, hrest, hkeep]
      · have hkeep : keepEntry lrt cutoff kv = true := by
          simp [keepEntry, herr, ht, hlt]
        simp [rangeDeleteAndCollect, herr, ht, hlt, hrest, hkeep]

theorem upsert_append (pre rest : Store) (key : String) (tv tv' : TimedValue)
    (h : key ∉ keysOf pre) :
    upsert (pre ++ (key, tv) :: rest) key tv' = pre ++ (key, tv') :: rest := by
  induction pre with
  | nil => simp [upsert]
  | cons kv pre ih =>
    have hne : ¬ kv.1 = key := by
      intro e
      exact h (by simp [e])
    have htail : key ∉ keysOf pre := fun hm => h (by simp [hm])
    simp [upsert, hne, ih htail]

theorem storeUpdate_append (goodStale goodExpiry : GoDur) (now : Instant)
    (out : Except GoError LookupOut) (pre rest : Store) (key : String)
    (tv : TimedValue) (h : key ∉ keysOf pre) :
    storeUpdate goodStale goodExpiry now out (pre ++ (key, tv) :: rest) key =
      pre ++ (key, updatedTV goodStale goodExpiry now out tv) :: rest := by
  match out with
  | .error e => simp [storeUpdate, applyLookup, updatedTV]
  | .ok (.bare value) =>
    simp [storeUpdate, applyLookup, updatedTV, upsert_append pre rest key tv _ h]
  | .ok (.timed tv') =>
    simp [storeUpdate, applyLookup, updatedTV, upsert_append pre rest key tv _ h]

theorem foldl_storeUpdate (goodStale goodExpiry : GoDur) (now : Instant)
    (lookupOf : String → Except GoError LookupOut) :
    ∀ s pre : Store, (keysOf (pre ++ s)).Nodup →
      (keysOf s).foldl
        (fun acc key => storeUpdate goodStale goodExpiry now (lookupOf key) acc key)
        (pre ++ s) =
      pre ++ s.map (fun kv =>
        (kv.1, updatedTV goodStale goodExpiry now (lookupOf kv.1) kv.2)) := by
  intro s
  induction s with
  | nil => intro pre _; simp [keysOf]
  | cons kv rest ih =>
    intro pre h
    obtain ⟨k, tv⟩ := kv
    have hkeys : keysOf (pre ++ (k, tv) :: rest) = keysOf pre ++ k :: keysOf rest := by
      simp [keysOf]
    have hknotpre : k ∉ keysOf pre := by
      rw [hkeys] at h
      have := List.disjoint_of_nodup_append h
      exact fun hm => this hm (List.mem_cons_self _ _)
    have hstep :
        storeUpdate goodStale goodExpiry now (lookupOf k) (pre ++ (k, tv) :: rest) k =
          (pre ++ [(k, updatedTV goodStale goodExpiry now (lookupOf k) tv)]) ++ rest := by
      rw [storeUpdate_append goodStale goodExpiry now (lookupOf k) pre rest k tv hknotpre]
      simp
    have hnodup2 :
        (keysOf ((pre ++ [(k, updatedTV goodStale goodExpiry now (lookupOf k) tv)]) ++ rest)).Nodup := by
      have : keysOf ((pre ++ [(k, updatedTV goodStale goodExpiry now (lookupOf k) tv)]) ++ rest)
          = keysOf (pre ++ (k, tv) :: rest) := by
        simp [keysOf]
      rw [this]
      exact h
    calc (keysOf ((k, tv) :: rest)).foldl
          (fun acc key => storeUpdate goodStale goodExpiry now (lookupOf key) acc key)
          (pre ++ (k, tv) :: rest)
        = (keysOf rest).foldl
            (fun acc key => storeUpdate goodStale goodExpiry now (lookupOf key) acc key)
            ((pre ++ [(k, updatedTV goodStale goodExpiry now (lookupOf k) tv)]) ++ rest) := by
          simp only [keysOf_cons, List.foldl_cons, hstep]
      _ = (pre ++ [(k, updatedTV goodStale goodExpiry now (lookupOf k) tv)]) ++
            rest.map (fun kv =>
              (kv.1, updatedTV goodStale goodExpiry now (lookupOf kv.1) kv.2)) :=
          ih _ hnodup2
      _ = pre ++ ((k, tv) :: rest).map (fun kv =>
              (kv.1, updatedTV goodStale goodExpiry now (lookupOf kv.1) kv.2)) := by
          simp

theorem keysOf_filter_nodup (s : Store) (p : String × TimedValue → Bool)
    (h : (keysOf s).Nodup) : (keysOf (s.filter p)).Nodup := by
  have hsub : List.Sublist (keysOf (s.filter p)) (keysOf s) :=
    List.Sublist.map Prod.fst (List.filter_sublist s)
  exact List.Nodup.sublist hsub h

theorem refreshBefore_eq (upstreamOf : String → Except GoError (List String))
    (now cutoff : Instant) (st : CCState)
    (hnodup : (keysOf st.cache).Nodup) (htracked : cacheKeysTracked st) :
    refreshBefore upstreamOf now cutoff st =
      some { st with cache := refreshedCache upstreamOf now cutoff st } := by
  unfold refreshBefore
  rw [rangeDeleteAndCollect_eq st.lastRequestTimes cutoff st.cache htracked]
  have hfilter : (keysOf (st.cache.filter (keepEntry st.lastRequestTimes cutoff))).Nodup :=
    keysOf_filter_nodup st.cache _ hnodup
  have := foldl_storeUpdate st.config.stale st.config.expiry now
    (fun key => cacheLookup (upstreamOf key) now)
    (st.cache.filter (keepEntry st.lastRequestTimes cutoff)) []
    (by simpa using hfilter)
  simp only [List.nil_append] at this
  simp only [this, refreshedCache]

theorem keysOf_map_entry (l : Store) (g : String × TimedValue → TimedValue) :
    keysOf (l.map (fun x => (x.1, g x))) = keysOf l := by
  induction l with
  | nil => rfl
  | cons x rest ih =>
    simp only [List.map_cons, keysOf_cons]
    rw [ih]

theorem findEntry_map_of_mem (l : Store) (g : String × TimedValue → TimedValue)
    (hn : (keysOf l).Nodup) {kv : String × TimedValue} (hm : kv ∈ l) :
    findEntry (l.map (fun x => (x.1, g x))) kv.1 = some (g kv) := by
  induction l with
  | nil => cases hm
  | cons x rest ih =>
    have hcons : (x.1 :: keysOf rest).Nodup := by simpa [keysOf] using hn
    have hx : x.1 ∉ keysOf rest := (List.nodup_cons.mp hcons).1
    have hrest : (keysOf rest).Nodup := (List.nodup_cons.mp hcons).2
    rcases List.mem_cons.mp hm with e | m
    · rw [e]
      simp [findEntry]
    · have hne : ¬ x.1 = kv.1 := by
        intro e
        exact hx ((mem_keysOf rest x.1).mpr ⟨kv, m, e.symm⟩)
      simp [findEntry, hne, ih hrest m]

theorem findEntry_none_of_not_mem (l : Store) {k : String} (h : k ∉ keysOf l) :
    findEntry l k = none :=
  (findEntry_eq_none_iff l k).mpr h

/-! ## The containment invariant machinery (claim C9) -/

theorem refreshedCache_nodup (upstreamOf : String → Except GoError (List String))
    (now cutoff : Instant) (st : CCState) (h : (keysOf st.cache).Nodup) :
    (keysOf (refreshedCache upstreamOf now cutoff st)).Nodup := by
  unfold refreshedCache
  rw [keysOf_map_entry]
  exact keysOf_filter_nodup st.cache _ h

theorem refreshedCache_tracked (upstreamOf : String → Except GoError (List String))
    (now cutoff : Instant) (st : CCState) (ht : cacheKeysTracked st) :
    ∀ kv ∈ refreshedCache upstreamOf now cutoff st,
      (tmLoad st.lastRequestTimes kv.1).isSome := by
  intro kv hkv
  unfold refreshedCache at hkv
  obtain ⟨kv0, hkv0, he⟩ := List.mem_map.mp hkv
  have hmem : kv0 ∈ st.cache := List.mem_of_mem_filter hkv0
  have := ht kv0 hmem
  rw [← he]
  exact this

theorem goodState_query (st : CCState) (h : goodState st) (now : Instant)
    (upstream : Except GoError (List String)) (expression : String) :
    goodState (cachingClientQuery now upstream st expression).state := by
  obtain ⟨hn, ht⟩ := h
  unfold cachingClientQuery
  dsimp only
  constructor
  · rcases storeQuery_fst st.config.stale st.config.expiry now
      (cacheLookup upstream now) st.cache expression with he | he <;> rw [he]
    · exact hn
    · exact keysOf_applyLookup_nodup _ _ _ _ _ _ hn
  · intro kv hkv
    have hk : kv.1 ∈ keysOf (storeQuery st.config.stale st.config.expiry now
        (cacheLookup upstream now) st.cache expression).1 :=
      (mem_keysOf _ _).mpr ⟨kv, hkv, rfl⟩
    have hcases : kv.1 = expression ∨ kv.1 ∈ keysOf st.cache := by
      rcases storeQuery_fst st.config.stale st.config.expiry now
        (cacheLookup upstream now) st.cache expression with he | he
      · rw [he] at hk
        exact Or.inr hk
      · rw [he] at hk
        exact keysOf_applyLookup_subset _ _ _ _ _ _ _ hk
    rw [tmLoad_tmStore]
    by_cases e : kv.1 = expression
    · rw [if_pos e]
      rfl
    · rw [if_neg e]
      rcases hcases with e' | m
      · exact absurd e' e
      · obtain ⟨kv0, hkv0, hkey⟩ := (mem_keysOf st.cache kv.1).mp m
        have := ht kv0 hkv0
        rw [hkey] at this
        exact this

theorem refreshBasedOnVersion_cases
    (upstreamOf : String → Except GoError (List String)) (now : Instant)
    (versionResult : Except GoError (List String)) (st : CCState)
    (hg : goodState st) :
    refreshBasedOnVersion upstreamOf now versionResult st = some (st, some (.queryFailed (match versionResult with | .error e => e | _ => .transport ""))) ∨
    (∃ r, refreshBasedOnVersion upstreamOf now versionResult st = some (st, r)) ∨
    (∃ v, refreshBasedOnVersion upstreamOf now versionResult st =
      some ({ st with
        cache := refreshedCache upstreamOf now (v * second - st.config.stale) st
        version := v }, none)) := by
  unfold refreshBasedOnVersion
  cases versionResult with
  | error e => exact Or.inr (Or.inl ⟨some (.queryFailed e), rfl⟩)
  | ok someStrings =>
    match someStrings with
    | [] => exact Or.inr (Or.inl ⟨some (.wrongLineCount 0), rfl⟩)
    | line :: next :: rest =>
      exact Or.inr (Or.inl ⟨some (.wrongLineCount (line :: next :: rest).length), rfl⟩)
    | [line] =>
      dsimp only
      cases goParseInt64 line with
      | none => exact Or.inr (Or.inl ⟨some .parseFailed, rfl⟩)
      | some version =>
        dsimp only
        by_cases hv : st.version < version
        · rw [if_pos hv,
            refreshBefore_eq upstreamOf now (version * second - st.config.stale) st hg.1 hg.2]
          exact Or.inr (Or.inr ⟨version, rfl⟩)
        · rw [if_neg hv]
          exact Or.inr (Or.inl ⟨none, rfl⟩)

theorem goodState_applyOp (op : ClientOp) (st st' : CCState)
    (hg : goodState st) (hs : applyOp op st = some st') : goodState st' := by
  cases op with
  | query expression now upstream =>
    have he : st' = (cachingClientQuery now upstream st expression).state :=
      (Option.some_inj.mp hs).symm
    rw [he]
    exact goodState_query st hg now upstream expression
  | versionCheck now versionResult upstreamOf =>
    simp only [applyOp] at hs
    by_cases hc : 0 < st.config.checkVersionPeriodicity
    · rw [if_pos hc] at hs
      rcases refreshBasedOnVersion_cases upstreamOf now versionResult st hg with
        h1 | ⟨r, h1⟩ | ⟨v, h1⟩
      · rw [h1] at hs
        simp at hs
        rw [← hs]
        exact hg
      · rw [h1] at hs
        simp at hs
        rw [← hs]
        exact hg
      · rw [h1] at hs
        simp at hs
        rw [← hs]
        exact ⟨refreshedCache_nodup upstreamOf now _ st hg.1,
          fun kv hkv => refreshedCache_tracked upstreamOf now _ st hg.2 kv hkv⟩
    · rw [if_neg hc] at hs
      rw [← Option.some_inj.mp hs]
      exact hg
  | staleSweep now upstreamOf =>
    simp only [applyOp] at hs
    by_cases hc : 0 < st.config.stale
    · rw [if_pos hc,
        refreshBefore_eq upstreamOf now (now - st.config.expiry) st hg.1 hg.2] at hs
      rw [← Option.some_inj.mp hs]
      exact ⟨refreshedCache_nodup upstreamOf now _ st hg.1,
        fun kv hkv => refreshedCache_tracked upstreamOf now _ st hg.2 kv hkv⟩
    · rw [if_neg hc] at hs
      rw [← Option.some_inj.mp hs]
      exact hg
  | cacheGC now =>
    simp only [applyOp] at hs
    rw [← Option.some_inj.mp hs]
    constructor
    · exact keysOf_filter_nodup st.cache _ hg.1
    · intro kv hkv
      exact hg.2 kv (List.mem_of_mem_filter hkv)

theorem applyOp_ne_none (op : ClientOp) (st : CCState) (hg : goodState st) :
    applyOp op st ≠ none := by
  cases op with
  | query expression now upstream => simp [applyOp]
  | versionCheck now versionResult upstreamOf =>
    simp only [applyOp]
    by_cases hc : 0 < st.config.checkVersionPeriodicity
    · rw [if_pos hc]
      rcases refreshBasedOnVersion_cases upstreamOf now versionResult st hg with
        h1 | ⟨r, h1⟩ | ⟨v, h1⟩ <;> simp [h1]
    · rw [if_neg hc]
      simp
  | staleSweep now upstreamOf =>
    simp only [applyOp]
    by_cases hc : 0 < st.config.stale
    · rw [if_pos hc,
        refreshBefore_eq upstreamOf now (now - st.config.expiry) st hg.1 hg.2]
      simp
    · rw [if_neg hc]
      simp
  | cacheGC now => simp [applyOp]

theorem goodState_reachable (ccc : CachingClientConfig) (st : CCState)
    (h : Reachable ccc st) : goodState st := by
  induction h with
  | init =>
    constructor
    · simp [initState, keysOf]
    · intro kv hkv
      simp [initState] at hkv
  | step op hr hs ih => exact goodState_applyOp _ _ _ ih hs

/-! ## Transport-loop lemmas (claims C6 and C10) -/

theorem getFromRangeServerLoop_len (wire : Wire) :
    ∀ (n idx : Nat) (m : Method) (herr : Option GoError),
      (getFromRangeServerLoop wire n idx m herr).2.length ≤ n := by
  intro n
  induction n with
  | zero => intro idx m herr; simp [getFromRangeServerLoop]
  | succ n ih =>
    intro idx m herr
    unfold getFromRangeServerLoop
    cases wire idx m with
    | error e => simp
    | ok resp =>
      dsimp only
      by_cases h200 : resp.statusCode = 200
      · rw [if_pos h200]
        by_cases hre : resp.rangeExceptionHeader ≠ ""
        · rw [if_pos hre]; simp
        · rw [if_neg hre]; simp
      · rw [if_neg h200]
        dsimp only
        have := ih (idx + 1)
          (if resp.statusCode = 414 then .put
            else if resp.statusCode = 405 then .get else m)
          (some (.statusNotOK resp.status resp.statusCode))
        simpa using Nat.succ_le_succ this

theorem getFromRangeServerLoop_one (wire : Wire) (idx : Nat) (m : Method)
    (herr : Option GoError) :
    (getFromRangeServerLoop wire 1 idx m herr).2 = [m] := by
  unfold getFromRangeServerLoop
  cases wire idx m with
  | error e => rfl
  | ok resp =>
    dsimp only
    by_cases h200 : resp.statusCode = 200
    · rw [if_pos h200]
      by_cases hre : resp.rangeExceptionHeader ≠ ""
      · rw [if_pos hre]
      · rw [if_neg hre]
    · rw [if_neg h200]
      dsimp only
      unfold getFromRangeServerLoop
      rfl

theorem getFromRangeServer_len_pos (server escapedExpression : String) (wire : Wire) :
    1 ≤ (getFromRangeServer server escapedExpression wire).2.length := by
  unfold getFromRangeServer getFromRangeServerLoop
  cases wire 0 (initialMethod server escapedExpression) with
  | error e => simp
  | ok resp =>
    dsimp only
    by_cases h200 : resp.statusCode = 200
    · rw [if_pos h200]
      by_cases hre : resp.rangeExceptionHeader ≠ ""
      · rw [if_pos hre]; simp
      · rw [if_neg hre]; simp
    · rw [if_neg h200]
      simp

/-! ## Claim theorems -/

/-- C1: when the underlying querier answers an expression with an
`ErrRangeException`, the caching client's lookup callback returns an
explicit `TimedValue` whose value is nil, whose error is that exception,
whose stale instant is now + 1 minute and whose expiry instant is
now + 5 minutes; on a cache miss the store caches exactly that `TimedValue`
for the expression and the error is returned to the caller. -/
theorem claim1_rangeExceptionCached (message : String) (now : Instant)
    (st : CCState) (expression : String)
    (hmiss : findEntry st.cache expression = none) :
    cacheLookup (.error (.rangeException message)) now =
      .ok (.timed ⟨none, some (.rangeException message),
        now + 1 * minute, now + 5 * minute⟩)
    ∧ findEntry
        (cachingClientQuery now (.error (.rangeException message)) st expression).state.cache
        expression =
      some ⟨none, some (.rangeException message), now + 1 * minute, now + 5 * minute⟩
    ∧ (cachingClientQuery now (.error (.rangeException message)) st expression).result =
      .error (.rangeException message) := by
  have hcl : cacheLookup (.error (.rangeException message)) now =
      .ok (.timed ⟨none, some (.rangeException message),
        now + 1 * minute, now + 5 * minute⟩) := rfl
  refine ⟨hcl, ?_, ?_⟩
  · simp only [cachingClientQuery, storeQuery, hmiss, hcl, applyLookup]
    exact findEntry_upsert_self st.cache expression _
  · simp only [cachingClientQuery, storeQuery, hmiss, hcl, applyLookup]
    rfl

/-- C1 witness at a concrete input. -/
theorem claim1_rangeExceptionCached_witness :
    findEntry ([] : Store) "%q" = none
    ∧ (cacheLookup (.error (.rangeException "NOCLUSTER")) 0 =
        .ok (.timed ⟨none, some (.rangeException "NOCLUSTER"),
          0 + 1 * minute, 0 + 5 * minute⟩)
      ∧ findEntry
          (cachingClientQuery 0 (.error (.rangeException "NOCLUSTER"))
            ⟨⟨0, 0, 0⟩, [], [], 0⟩ "%q").state.cache "%q" =
        some ⟨none, some (.rangeException "NOCLUSTER"), 0 + 1 * minute, 0 + 5 * minute⟩
      ∧ (cachingClientQuery 0 (.error (.rangeException "NOCLUSTER"))
          ⟨⟨0, 0, 0⟩, [], [], 0⟩ "%q").result = .error (.rangeException "NOCLUSTER")) :=
  ⟨rfl, claim1_rangeExceptionCached "NOCLUSTER" 0 ⟨⟨0, 0, 0⟩, [], [], 0⟩ "%q" rfl⟩

/-- C2: when the underlying querier fails with anything that is not an
`ErrRangeException`, the lookup callback returns that error bare, the store
caches nothing (the cache is unchanged), the error propagates to the
caller, and a subsequent `Query` for the same expression invokes the
upstream querier again. -/
theorem claim2_nonSemanticErrorsNotCached (e : GoError)
    (he : e.isRangeException = false) (st : CCState) (expression : String)
    (now now2 : Instant) (upstream2 : Except GoError (List String))
    (hmiss : findEntry st.cache expression = none) :
    cacheLookup (.error e) now = .error e
    ∧ (cachingClientQuery now (.error e) st expression).result = .error e
    ∧ (cachingClientQuery now (.error e) st expression).state.cache = st.cache
    ∧ (cachingClientQuery now (.error e) st expression).upstreamInvoked = true
    ∧ (cachingClientQuery now2 upstream2
        (cachingClientQuery now (.error e) st expression).state
        expression).upstreamInvoked = true := by
  have hcl : cacheLookup (.error e) now = .error e := by
    simp [cacheLookup, he]
  have hinner : (storeQuery st.config.stale st.config.expiry now
      (cacheLookup (.error e) now) st.cache expression).1 = st.cache := by
    simp only [storeQuery, hmiss, hcl, applyLookup]
  have hcache : (cachingClientQuery now (.error e) st expression).state.cache = st.cache := by
    simp only [cachingClientQuery]
    exact hinner
  refine ⟨hcl, ?_, hcache, ?_, ?_⟩
  · simp only [cachingClientQuery, storeQuery, hmiss, hcl, applyLookup]
  · simp only [cachingClientQuery, storeQuery, hmiss, hcl, applyLookup]
  · simp only [cachingClientQuery]
    rw [hinner]
    simp only [storeQuery, hmiss]

/-- C2 witness at a concrete input. -/
theorem claim2_nonSemanticErrorsNotCached_witness :
    GoError.isRangeException (.statusNotOK "500 Internal Server Error" 500) = false
    ∧ findEntry ([] : Store) "%q" = none
    ∧ (cacheLookup (.error (.statusNotOK "500 Internal Server Error" 500)) 0 =
        .error (.statusNotOK "500 Internal Server Error" 500)
      ∧ (cachingClientQuery 0 (.error (.statusNotOK "500 Internal Server Error" 500))
          ⟨⟨0, 0, 0⟩, [], [], 0⟩ "%q").result =
        .error (.statusNotOK "500 Internal Server Error" 500)
      ∧ (cachingClientQuery 0 (.error (.statusNotOK "500 Internal Server Error" 500))
          ⟨⟨0, 0, 0⟩, [], [], 0⟩ "%q").state.cache = ([] : Store)
      ∧ (cachingClientQuery 0 (.error (.statusNotOK "500 Internal Server Error" 500))
          ⟨⟨0, 0, 0⟩, [], [], 0⟩ "%q").upstreamInvoked = true
      ∧ (cachingClientQuery 1 (.ok ["x"])
          (cachingClientQuery 0 (.error (.statusNotOK "500 Internal Server Error" 500))
            ⟨⟨0, 0, 0⟩, [], [], 0⟩ "%q").state "%q").upstreamInvoked = true) :=
  ⟨rfl, rfl,
    claim2_nonSemanticErrorsNotCached (.statusNotOK "500 Internal Server Error" 500) rfl
      ⟨⟨0, 0, 0⟩, [], [], 0⟩ "%q" 0 1 (.ok ["x"]) rfl⟩

/-- C3: for every cutoff, `refreshBefore` visits every (key, entry) pair of
the result cache; keys whose entry carries an error are deleted, keys whose
last-access instant is before the cutoff are deleted, every other key is
enqueued and re-fetched through `Update`, and the returned state already
incorporates the update outcome of every enqueued key (the queue has been
drained). -/
theorem claim3_refreshBeforePolicy
    (upstreamOf : String → Except GoError (List String))
    (now cutoff : Instant) (st : CCState)
    (hnodup : (keysOf st.cache).Nodup) (htracked : cacheKeysTracked st) :
    refreshBefore upstreamOf now cutoff st =
      some { st with cache := refreshedCache upstreamOf now cutoff st }
    ∧ (∀ kv ∈ st.cache, kv.2.err.isSome = true →
        findEntry (refreshedCache upstreamOf now cutoff st) kv.1 = none)
    ∧ (∀ kv ∈ st.cache, ∀ t : Instant, kv.2.err = none →
        tmLoad st.lastRequestTimes kv.1 = some t → t < cutoff →
        findEntry (refreshedCache upstreamOf now cutoff st) kv.1 = none)
    ∧ (∀ kv ∈ st.cache, ∀ t : Instant, kv.2.err = none →
        tmLoad st.lastRequestTimes kv.1 = some t → ¬ t < cutoff →
        findEntry (refreshedCache upstreamOf now cutoff st) kv.1 =
          some (updatedTV st.config.stale st.config.expiry now
            (cacheLookup (upstreamOf kv.1) now) kv.2)) := by
  refine ⟨refreshBefore_eq upstreamOf now cutoff st hnodup htracked, ?_, ?_, ?_⟩
  · intro kv hm herr
    apply findEntry_none_of_not_mem
    intro hmem
    unfold refreshedCache at hmem
    rw [keysOf_map_entry] at hmem
    obtain ⟨kv', hf, he⟩ := (mem_keysOf _ _).mp hmem
    have hc : kv' ∈ st.cache := List.mem_of_mem_filter hf
    have heq : kv' = kv := keys_nodup_inj st.cache hnodup hc hm he
    have hkeep : keepEntry st.lastRequestTimes cutoff kv' = true :=
      List.of_mem_filter hf
    rw [heq] at hkeep
    simp [keepEntry, herr] at hkeep
  · intro kv hm t herr hload hlt
    apply findEntry_none_of_not_mem
    intro hmem
    unfold refreshedCache at hmem
    rw [keysOf_map_entry] at hmem
    obtain ⟨kv', hf, he⟩ := (mem_keysOf _ _).mp hmem
    have hc : kv' ∈ st.cache := List.mem_of_mem_filter hf
    have heq : kv' = kv := keys_nodup_inj st.cache hnodup hc hm he
    have hkeep : keepEntry st.lastRequestTimes cutoff kv' = true :=
      List.of_mem_filter hf
    rw [heq] at hkeep
    simp [keepEntry, herr, hload, hlt] at hkeep
  · intro kv hm t herr hload hnlt
    have hkeep : keepEntry st.lastRequestTimes cutoff kv = true := by
      simp [keepEntry, herr, hload, hnlt]
    have hf : kv ∈ st.cache.filter (keepEntry st.lastRequestTimes cutoff) :=
      List.mem_filter.mpr ⟨hm, hkeep⟩
    unfold refreshedCache
    exact findEntry_map_of_mem _ _ (keysOf_filter_nodup st.cache _ hnodup) hf

/-- C3 witness at a concrete input. -/
theorem claim3_refreshBeforePolicy_witness :
    (keysOf c3State.cache).Nodup ∧ cacheKeysTracked c3State
    ∧ (refreshBefore (fun _ => .ok ["new"]) 100 10 c3State =
        some { c3State with cache := refreshedCache (fun _ => .ok ["new"]) 100 10 c3State }
      ∧ (∀ kv ∈ c3State.cache, kv.2.err.isSome = true →
          findEntry (refreshedCache (fun _ => .ok ["new"]) 100 10 c3State) kv.1 = none)
      ∧ (∀ kv ∈ c3State.cache, ∀ t : Instant, kv.2.err = none →
          tmLoad c3State.lastRequestTimes kv.1 = some t → t < 10 →
          findEntry (refreshedCache (fun _ => .ok ["new"]) 100 10 c3State) kv.1 = none)
      ∧ (∀ kv ∈ c3State.cache, ∀ t : Instant, kv.2.err = none →
          tmLoad c3State.lastRequestTimes kv.1 = some t → ¬ t < 10 →
          findEntry (refreshedCache (fun _ => .ok ["new"]) 100 10 c3State) kv.1 =
            some (updatedTV c3State.config.stale c3State.config.expiry 100
              (cacheLookup ((fun _ => .ok ["new"]) kv.1) 100) kv.2))) :=
  ⟨by decide, by unfold cacheKeysTracked; decide,
    claim3_refreshBeforePolicy (fun _ => .ok ["new"]) 100 10 c3State
      (by decide) (by unfold cacheKeysTracked; decide)⟩

/-- C4: on a version tick the client requires exactly one output line from
`%version`, parseable as a signed 64-bit integer; only a strictly greater
version triggers `refreshBefore` with cutoff `unix(version) - stale`
followed by storing the new version; on a query error, a wrong line count,
an unparseable line, or a non-increasing version, the state (version and
caches) is unchanged. -/
theorem claim4_versionTick (upstreamOf : String → Except GoError (List String))
    (now : Instant) (st : CCState) :
    (∀ e, refreshBasedOnVersion upstreamOf now (.error e) st =
      some (st, some (.queryFailed e)))
    ∧ (∀ lines : List String, lines.length ≠ 1 →
        refreshBasedOnVersion upstreamOf now (.ok lines) st =
          some (st, some (.wrongLineCount lines.length)))
    ∧ (∀ line, goParseInt64 line = none →
        refreshBasedOnVersion upstreamOf now (.ok [line]) st =
          some (st, some .parseFailed))
    ∧ (∀ line v, goParseInt64 line = some v → v ≤ st.version →
        refreshBasedOnVersion upstreamOf now (.ok [line]) st = some (st, none))
    ∧ (∀ line v, goParseInt64 line = some v → st.version < v →
        refreshBasedOnVersion upstreamOf now (.ok [line]) st =
          (refreshBefore upstreamOf now (v * second - st.config.stale) st).map
            (fun st' => ({ st' with version := v }, none))) := by
  refine ⟨?_, ?_, ?_, ?_, ?_⟩
  · intro e
    rfl
  · intro lines hlen
    cases lines with
    | nil => rfl
    | cons a rest =>
      cases rest with
      | nil => exact absurd rfl hlen
      | cons b rest2 => rfl
  · intro line hp
    simp only [refreshBasedOnVersion, hp]
  · intro line v hp hle
    have hnl : ¬ st.version < v := not_lt.mpr hle
    simp only [refreshBasedOnVersion, hp]
    rw [if_neg hnl]
  · intro line v hp hlt
    simp only [refreshBasedOnVersion, hp]
    rw [if_pos hlt]
    cases refreshBefore upstreamOf now (v * second - st.config.stale) st with
    | none => rfl
    | some st' => rfl

/-- C4 witness at concrete inputs: `%version` answers "7" while the stored
version is 5, so the caches are refreshed with cutoff `7 s - stale` and the
version becomes 7; the 64-bit bound is witnessed on 2^63. -/
theorem claim4_versionTick_witness :
    goParseInt64 "9223372036854775808" = none
    ∧ goParseInt64 "7" = some 7
    ∧ ((5 : Int) < 7)
    ∧ refreshBasedOnVersion (fun _ => .ok ["x"]) 0 (.ok ["7"])
        ⟨⟨0, 0, 0⟩, [], [], 5⟩ =
      (refreshBefore (fun _ => .ok ["x"]) 0
          (7 * second - (⟨⟨0, 0, 0⟩, [], [], 5⟩ : CCState).config.stale)
          ⟨⟨0, 0, 0⟩, [], [], 5⟩).map
        (fun st' => ({ st' with version := 7 }, none)) :=
  ⟨by decide, by decide, by decide,
    (claim4_versionTick (fun _ => .ok ["x"]) 0 ⟨⟨0, 0, 0⟩, [], [], 5⟩).2.2.2.2
      "7" 7 (by decide) (by decide)⟩

/-- C5 (counterexample): a successful v3 `Client.Query` of a body whose
first line carries surrounding spaces returns the line untrimmed, not the
whitespace-trimmed sequence the claim demands. -/
theorem claim5_counterexample :
    clientQuery 0 (fun _ => false) "s" "%q"
        (fun _ => fun _ _ => .ok ⟨"200 OK", 200, "", " foo \nbar\n"⟩) =
      .ok [" foo ", "bar"]
    ∧ specQueryLines " foo \nbar\n" = ["foo", "bar"]
    ∧ ([" foo ", "bar"] : List String) ≠ ["foo", "bar"] :=
  ⟨rfl, rfl, by decide⟩

/-- C5 (amended): for every successful query, the v3 `Client.Query` returns
the response body split into scanner lines (LF-separated, with a trailing
CR stripped) WITHOUT trimming surrounding whitespace; the legacy clients'
parse additionally trims each line. -/
theorem claim5_untrimmedLines (retryCount : Nat) (retryCallback : GoError → Bool)
    (server escapedExpression : String) (wireOf : Nat → Wire) (body : String)
    (hok : getFromRangeServers retryCount retryCallback
        (fetchOf server escapedExpression wireOf) = .ok body) :
    clientQuery retryCount retryCallback server escapedExpression wireOf =
      .ok (goScanLines body)
    ∧ legacyQueryParse body = (goScanLines body).map trimSpace := by
  constructor
  · unfold clientQuery
    rw [hok]
  · rfl

/-- C5 (amended) witness at a concrete input. -/
theorem claim5_untrimmedLines_witness :
    getFromRangeServers 0 (fun _ => false) (fetchOf "s" "%q" c5Wire) = .ok "a\r\nb"
    ∧ (clientQuery 0 (fun _ => false) "s" "%q" c5Wire = .ok (goScanLines "a\r\nb")
      ∧ legacyQueryParse "a\r\nb" = (goScanLines "a\r\nb").map trimSpace) :=
  ⟨rfl, claim5_untrimmedLines 0 (fun _ => false) "s" "%q" c5Wire "a\r\nb" rfl⟩

/-- C6: `getFromRangeServer` chooses PUT as the initial method exactly when
the full URI (endpoint plus escaped expression) exceeds 4096 bytes, and GET
otherwise; a 414 response switches the second attempt to PUT, a 405
response switches it to GET, and at most two method attempts are made per
call. -/
theorem claim6_methodFallback (server escapedExpression : String) (wire : Wire) :
    (initialMethod server escapedExpression = .put ↔
      defaultQueryLengthThreshold < goLen (rangeURI server escapedExpression))
    ∧ (∀ resp, wire 0 (initialMethod server escapedExpression) = .ok resp →
        resp.statusCode = 414 →
        (getFromRangeServer server escapedExpression wire).2 =
          [initialMethod server escapedExpression, .put])
    ∧ (∀ resp, wire 0 (initialMethod server escapedExpression) = .ok resp →
        resp.statusCode = 405 →
        (getFromRangeServer server escapedExpression wire).2 =
          [initialMethod server escapedExpression, .get])
    ∧ (getFromRangeServer server escapedExpression wire).2.length ≤ 2 := by
  refine ⟨?_, ?_, ?_, ?_⟩
  · unfold initialMethod
    by_cases h : defaultQueryLengthThreshold < goLen (rangeURI server escapedExpression)
    · rw [if_pos h]
      simp [h]
    · rw [if_neg h]
      simp [h]
  · intro resp hw h414
    have h200 : ¬ resp.statusCode = 200 := by
      rw [h414]
      decide
    unfold getFromRangeServer getFromRangeServerLoop
    rw [hw]
    dsimp only
    rw [if_neg h200, if_pos h414, getFromRangeServerLoop_one]
  · intro resp hw h405
    have h200 : ¬ resp.statusCode = 200 := by
      rw [h405]
      decide
    have h414 : ¬ resp.statusCode = 414 := by
      rw [h405]
      decide
    unfold getFromRangeServer getFromRangeServerLoop
    rw [hw]
    dsimp only
    rw [if_neg h200, if_neg h414, if_pos h405, getFromRangeServerLoop_one]
  · exact getFromRangeServerLoop_len wire 2 0 _ none

/-- C6 witness at a concrete input: after a 414 the second attempt uses
PUT. -/
theorem claim6_methodFallback_witness :
    c6Wire 0 (initialMethod "s" "%q") = .ok ⟨"414 Request-URI Too Long", 414, "", ""⟩
    ∧ (⟨"414 Request-URI Too Long", 414, "", ""⟩ : HttpResponse).statusCode = 414
    ∧ (getFromRangeServer "s" "%q" c6Wire).2 = [initialMethod "s" "%q", .put] :=
  ⟨rfl, rfl, (claim6_methodFallback "s" "%q" c6Wire).2.1 _ rfl rfl⟩

/-- C7 (counterexample): the legacy top-level construction with
TTL = 30 s, TTE = 0 and checkVersionPeriodicity = 15 s builds a caching
client (TTL > 0) whose good-stale duration is 30 s, not 0, and whose
good-expiry duration is 0, not 4 hours — refuting the claim for that
construction path. -/
theorem claim7_counterexample :
    legacyUsesCachingClient (30 * second) 0 (15 * second) = true
    ∧ (0 : GoDur) < 15 * second
    ∧ legacyNewCachingClientDurations
        (legacyCachingConfigOf (30 * second) 0 (15 * second)) =
      .ok ⟨30 * second, 0, badStaleDuration, badExpiryDuration, 0⟩
    ∧ (30 * second : GoDur) ≠ 0
    ∧ (0 : GoDur) ≠ 4 * hour :=
  ⟨by decide, by decide, rfl, by decide, by decide⟩

/-- C7 (amended): the v3 construction forces the good-stale duration to 0
whenever version polling is enabled, and defaults a zero expiry to 4 hours;
the legacy top-level construction passes TTL and TTE to the result cache
unchanged (with a fixed one-hour GC periodicity when TTE > 0). -/
theorem claim7_v3Overrides :
    (∀ ccc : CachingClientConfig, 0 < ccc.checkVersionPeriodicity →
      (v3SwarmDurations ccc).goodStale = 0
      ∧ (ccc.expiry = 0 → (v3SwarmDurations ccc).goodExpiry = 4 * hour))
    ∧ (∀ ttl tte cvp : GoDur, ¬ ttl < 0 → ¬ tte < 0 → ¬ cvp < 0 →
        legacyNewCachingClientDurations (legacyCachingConfigOf ttl tte cvp) =
          .ok ⟨ttl, tte, badStaleDuration, badExpiryDuration,
            if 0 < tte then hour else 0⟩) := by
  constructor
  · intro ccc hc
    constructor
    · simp [v3SwarmDurations, v3AdjustConfig, hc]
    · intro he
      simp [v3SwarmDurations, v3AdjustConfig, hc, he]
  · intro ttl tte cvp h1 h2 h3
    have hgc : ¬ (if 0 < tte then hour else 0) < 0 := by
      by_cases h : 0 < tte
      · rw [if_pos h]
        decide
      · rw [if_neg h]
        decide
    simp [legacyNewCachingClientDurations, legacyCachingConfigOf, h1, h2, h3, hgc]

/-- C7 (amended) witness at concrete inputs. -/
theorem claim7_v3Overrides_witness :
    (0 : GoDur) < 15 * second
    ∧ ((v3SwarmDurations ⟨30 * second, 0, 15 * second⟩).goodStale = 0
      ∧ ((⟨30 * second, 0, 15 * second⟩ : CachingClientConfig).expiry = 0 →
          (v3SwarmDurations ⟨30 * second, 0, 15 * second⟩).goodExpiry = 4 * hour))
    ∧ ¬ (30 * second : GoDur) < 0
    ∧ ¬ (0 : GoDur) < 0
    ∧ ¬ (15 * second : GoDur) < 0
    ∧ legacyNewCachingClientDurations
        (legacyCachingConfigOf (30 * second) 0 (15 * second)) =
      .ok ⟨30 * second, 0, badStaleDuration, badExpiryDuration,
        if (0 : GoDur) < 0 then hour else 0⟩ :=
  ⟨by decide,
    claim7_v3Overrides.1 ⟨30 * second, 0, 15 * second⟩ (by decide),
    by decide, by decide, by decide,
    claim7_v3Overrides.2 (30 * second) 0 (15 * second)
      (by decide) (by decide) (by decide)⟩

/-- C8 (counterexample): the legacy top-level construction with
TTE = 2 hours passes a GC periodicity of 1 hour — not the expiry — to the
result cache, refuting the claim for that construction path. -/
theorem claim8_counterexample :
    legacyNewCachingClientDurations (legacyCachingConfigOf 0 (2 * hour) (15 * second)) =
      .ok ⟨0, 2 * hour, badStaleDuration, badExpiryDuration, hour⟩
    ∧ (hour : GoDur) ≠ 2 * hour
    ∧ specGcPeriodicity (2 * hour) = 2 * hour :=
  ⟨rfl, by decide, by decide⟩

/-- C8 (amended): the v3 construction passes a GC periodicity equal to the
(possibly 4-hour-defaulted) expiry when that is positive and zero
otherwise, exactly the spec's rule; the legacy top-level construction
instead uses a fixed one hour whenever TTE is positive, else zero. -/
theorem claim8_gcPeriodicity :
    (∀ ccc : CachingClientConfig,
      (v3SwarmDurations ccc).gcPeriodicity = specGcPeriodicity (v3AdjustConfig ccc).expiry)
    ∧ (∀ ttl tte cvp : GoDur,
        (legacyCachingConfigOf ttl tte cvp).gcPeriodicity =
          if 0 < tte then hour else 0) := by
  constructor
  · intro ccc
    rfl
  · intro ttl tte cvp
    rfl

/-- C9: in every reachable state of a v3 `CachingClient`, every key present
in the result cache has a corresponding entry in the last-access map
(`Query` stamps the last-access time before consulting the cache — the only
path that inserts new cache keys — and nothing ever removes a key from the
last-access map), so no operation from a reachable state hits the
missing-key panic branch of `lastRequestTime`. -/
theorem claim9_noDemandLeak (ccc : CachingClientConfig) (st : CCState)
    (h : Reachable ccc st) :
    cacheKeysTracked st ∧ ∀ op : ClientOp, applyOp op st ≠ none := by
  have hg := goodState_reachable ccc st h
  exact ⟨hg.2, fun op => applyOp_ne_none op st hg⟩

/-- C9 witness: the state reached by one `Query` from a fresh client. -/
theorem claim9_noDemandLeak_witness :
    cacheKeysTracked ⟨⟨0, 0, 0⟩, [("%q", ⟨some ["a"], none, 0, 0⟩)], [("%q", 0)], 0⟩
    ∧ ∀ op : ClientOp,
        applyOp op ⟨⟨0, 0, 0⟩, [("%q", ⟨some ["a"], none, 0, 0⟩)], [("%q", 0)], 0⟩ ≠ none :=
  claim9_noDemandLeak ⟨0, 0, 0⟩
    ⟨⟨0, 0, 0⟩, [("%q", ⟨some ["a"], none, 0, 0⟩)], [("%q", 0)], 0⟩
    (Reachable.step (.query "%q" 0 (.ok ["a"])) Reachable.init rfl)

/-- C10: when TTL, TTE and CheckVersionPeriodicity are all zero (and the
other inputs are valid), v3 `NewQuerier` returns the plain transport client
— no `CachingClient` (hence no result cache, last-access map or background
task) is constructed — and the transport client issues at least one HTTP
attempt on every call, so every `Query` reaches the upstream servers.  The
legacy `NewQuerier` likewise skips the caching wrapper for that
configuration. -/
theorem claim10_plainClient (config : Configurator)
    (hs : config.servers.isEmpty = false)
    (hrc : ¬ config.retryCount < 0) (hrp : ¬ config.retryPause < 0)
    (hcvp : config.checkVersionPeriodicity = 0) (htte : config.tte = 0)
    (httl : config.ttl = 0) :
    newQuerier config = .ok .plainClient
    ∧ (∀ (server escapedExpression : String) (wire : Wire),
        1 ≤ (getFromRangeServer server escapedExpression wire).2.length)
    ∧ legacyUsesCachingClient 0 0 0 = false := by
  refine ⟨?_, ?_, by decide⟩
  · unfold newQuerier
    rw [if_neg (by simp [hs]), if_neg hrc, if_neg hrp,
      if_neg (by rw [hcvp]; decide), if_neg (by rw [httl]; decide),
      if_neg (by rw [htte]; decide), if_pos ⟨hcvp, htte, httl⟩]
  · intro server escapedExpression wire
    exact getFromRangeServer_len_pos server escapedExpression wire

/-- C10 witness at a concrete configuration. -/
theorem claim10_plainClient_witness :
    (⟨["range.example.com"], 0, 0, 0, 0, 0⟩ : Configurator).servers.isEmpty = false
    ∧ ¬ (⟨["range.example.com"], 0, 0, 0, 0, 0⟩ : Configurator).retryCount < 0
    ∧ ¬ (⟨["range.example.com"], 0, 0, 0, 0, 0⟩ : Configurator).retryPause < 0
    ∧ (newQuerier ⟨["range.example.com"], 0, 0, 0, 0, 0⟩ = .ok .plainClient
      ∧ (∀ (server escapedExpression : String) (wire : Wire),
          1 ≤ (getFromRangeServer server escapedExpression wire).2.length)
      ∧ legacyUsesCachingClient 0 0 0 = false) :=
  ⟨rfl, by decide, by decide,
    claim10_plainClient ⟨["range.example.com"], 0, 0, 0, 0, 0⟩ rfl
      (by decide) (by decide) rfl rfl rfl⟩

end Gorange
